import Mathlib

/-!
Verification of the aggregation, forecasting and scoring core of the
Commercial-Construction-Dashboard repository.

Modelling conventions (shallow embedding of the JavaScript source):
* Money and other numeric CSV fields are rationals; a field that the source
  would see as NaN or non-finite (a failed numeric coercion) is modelled as
  an Option that is none, so the isFinite checks of the source become isSome
  tests.  Fields that are only read after an isFinite guard are extracted
  with getD.
* Dates are modelled at the granularity the source uses them: end dates are
  day indices (Option Int, none for an empty or unparsable string, matching
  parseDate returning null and the isNaN guards), so a difference of two day
  indices is the number of days the source computes by dividing milliseconds
  by 86400000.  Start dates are only ever consumed through getFullYear and
  getMonth, so a project carries its start year and start month directly.
* JavaScript objects used as keyed accumulators are modelled as association
  lists updated in insertion order, matching forEach building an object.
* Math.round is floor of x + 1/2 (round half toward positive infinity),
  Math.min / Math.max are min / max, and the risk score formulas use
  Real.logb 10 for Math.log10.
-/

namespace CCDash

/-- A row of projects.csv after the numeric coercions done by each dashboard. -/
structure Project where
  project_id : String
  start_year : Int
  start_month : Fin 12
  planned_end : Option Int
  actual_end : Option Int
  planned_budget : Option ℚ
  actual_cost : Option ℚ
  deriving DecidableEq

/-- A row of change_orders.csv after numeric coercion; date_year is the year
of the parsed date (none when the date string does not parse). -/
structure ChangeOrder where
  project_id : String
  co_cost : Option ℚ
  co_reason : String
  date_year : Option Int
  deriving DecidableEq

/-- Lookup of the summed change-order total for a project id in a keyed
accumulator; coMap[id] is undefined when the key is absent and the source
reads it as coMap[row.project_id] with a fallback of 0 through the
logical-or, so an absent key (and a stored 0, indistinguishably) yields 0. -/
def lookupTotal (m : List (String × ℚ)) (id : String) : ℚ :=
  (m.lookup id).getD 0

/-- One forEach step of changeOrderTotalsByProject: add the cost (0 when the
cost is non-finite) into the bucket of the row's project id, with the
sentinel key for a missing project reference. -/
def bumpTotal (m : List (String × ℚ)) (k : String) (c : ℚ) : List (String × ℚ) :=
  match m with
  | [] => [(k, c)]
  | (k', v) :: rest => if k = k' then (k', v + c) :: rest else (k', v) :: bumpTotal rest k c

/-- changeOrderTotalsByProject from the predictive dashboard: sums co_cost by
project id, substituting 0 for a non-finite cost and a sentinel key for a
missing id. -/
def changeOrderTotalsByProject (cos : List ChangeOrder) : List (String × ℚ) :=
  cos.foldl
    (fun m r =>
      bumpTotal m (if r.project_id = "" then "__missing__" else r.project_id)
        (r.co_cost.getD 0)) []

/-- JavaScript Math.round: floor of x plus one half. -/
noncomputable def jsRound (x : ℝ) : Int := ⌊x + 1 / 2⌋

/-- Schedule slip in days used by ruleRiskScore: max 0 of actual end minus
planned end when both dates are present, otherwise 0. -/
def ruleSlipDays (row : Project) : ℚ :=
  match row.planned_end, row.actual_end with
  | some pe, some ae => max 0 ((ae : ℚ) - (pe : ℚ))
  | _, _ => 0

/-- ruleRiskScore from the predictive dashboard: a weighted sum of project
size (log10 of the budget floored at 1), schedule slip days and the project's
change-order total, rounded and then capped above at 100. -/
noncomputable def ruleRiskScore (row : Project) (coMap : List (String × ℚ)) : Int :=
  let size : ℝ := Real.logb 10 (max 1 ((row.planned_budget.getD 0 : ℚ) : ℝ))
  let slipDays : ℝ := ((ruleSlipDays row : ℚ) : ℝ)
  let coTotal : ℝ := ((lookupTotal coMap row.project_id : ℚ) : ℝ)
  min 100 (jsRound (20 * size + 0.05 * slipDays + 0.000005 * coTotal))

/-- Modelled from the spec sentence of claim C1: clamp the weighted sum into
the interval from 0 to 100 and then round. -/
noncomputable def specRuleScoreClaim (row : Project) (coMap : List (String × ℚ)) : Int :=
  let size : ℝ := Real.logb 10 (max 1 ((row.planned_budget.getD 0 : ℚ) : ℝ))
  let slipDays : ℝ := ((ruleSlipDays row : ℚ) : ℝ)
  let coTotal : ℝ := ((lookupTotal coMap row.project_id : ℚ) : ℝ)
  jsRound (min 100 (max 0 (20 * size + 0.05 * slipDays + 0.000005 * coTotal)))

/-- Modelled from the amended claim C1: round the weighted sum and cap it
above at 100, with no lower clamp. -/
noncomputable def specRuleScoreAmended (row : Project) (coMap : List (String × ℚ)) : Int :=
  let size : ℝ := Real.logb 10 (max 1 ((row.planned_budget.getD 0 : ℚ) : ℝ))
  let slipDays : ℝ := ((ruleSlipDays row : ℚ) : ℝ)
  let coTotal : ℝ := ((lookupTotal coMap row.project_id : ℚ) : ℝ)
  min 100 (jsRound (20 * size + 0.05 * slipDays + 0.000005 * coTotal))

/-! ### Aggregation rollups (diagnostic and descriptive dashboards) -/

/-- One keyed sum-and-count accumulator step: add v into the bucket of year
y, creating the bucket on first use, in insertion order like a forEach over
a JavaScript object. -/
def bumpYear (m : List (Int × ℚ × ℕ)) (y : Int) (v : ℚ) : List (Int × ℚ × ℕ) :=
  match m with
  | [] => [(y, v, 1)]
  | (y', s, c) :: rest =>
      if y = y' then (y', s + v, c + 1) :: rest else (y', s, c) :: bumpYear rest y v

/-- rollupAvgByYear from the diagnostic dashboard: group rows by start year,
skip a row whose accessor value is non-finite, and divide sum by count. -/
def rollupAvgByYear (rows : List Project) (accessor : Project → Option ℚ) :
    List (Int × ℚ) :=
  let sc := rows.foldl
    (fun m r =>
      match accessor r with
      | none => m
      | some v => bumpYear m r.start_year v) []
  sc.map (fun e => (e.1, e.2.1 / (e.2.2 : ℚ)))

/-- rollupAvgByMonth from the diagnostic dashboard: twelve sum-and-count
cells, a row contributes only when its start year matches and its accessor
value is finite; a cell with no contributions renders as 0. -/
def rollupAvgByMonth (rows : List Project) (year : Int)
    (accessor : Project → Option ℚ) : List ℚ :=
  let sc : Fin 12 → ℚ × ℕ := rows.foldl
    (fun m r =>
      if r.start_year = year then
        match accessor r with
        | none => m
        | some v =>
            Function.update m r.start_month (((m r.start_month).1 + v, (m r.start_month).2 + 1))
      else m) (fun _ => (0, 0))
  (List.finRange 12).map (fun i => if (sc i).2 ≠ 0 then (sc i).1 / ((sc i).2 : ℚ) else 0)

/-- One keyed sum accumulator step for coCostByYear. -/
def bumpCost (m : List (Int × ℚ)) (y : Int) (v : ℚ) : List (Int × ℚ) :=
  match m with
  | [] => [(y, v)]
  | (y', s) :: rest => if y = y' then (y', s + v) :: rest else (y', s) :: bumpCost rest y v

/-- coCostByYear from the descriptive dashboard: for every change order with
a parsable date, add its cost into that year's bucket, substituting 0 for a
non-finite cost (the row is not skipped: its year bucket is still created). -/
def coCostByYear (rows : List ChangeOrder) : List (Int × ℚ) :=
  rows.foldl
    (fun m r =>
      match r.date_year with
      | none => m
      | some y => bumpCost m y (match r.co_cost with | some c => c | none => 0)) []

/-! ### Linear regression and forecasting (predictive dashboard) -/

/-- Sum of the x values (years, cast to rationals) of a series. -/
def sumX (pts : List (Int × ℚ)) : ℚ := (pts.map (fun p => ((p.1 : ℚ)))).sum

/-- Sum of the y values of a series. -/
def sumY (pts : List (Int × ℚ)) : ℚ := (pts.map (fun p => p.2)).sum

/-- Sum of the squared x values of a series. -/
def sumXX (pts : List (Int × ℚ)) : ℚ := (pts.map (fun p => ((p.1 : ℚ)) ^ 2)).sum

/-- Sum of the products x times y of a series. -/
def sumXY (pts : List (Int × ℚ)) : ℚ := (pts.map (fun p => ((p.1 : ℚ)) * p.2)).sum

/-- Result record of linReg, mirroring the object the source returns. -/
structure LinFit where
  a : ℚ
  b : ℚ
  xs : List ℚ
  ys : List ℚ
  deriving DecidableEq

/-- linReg from the predictive dashboard, over the (year, value) pairs of a
series object (Object.keys enumerates the integer-like keys in ascending
numeric order, so the pairs arrive sorted by year; every quantity computed
here is a sum and does not depend on that order).  Fewer than 2 points yield
intercept equal to the first value or 0 and slope 0; otherwise the ordinary
least-squares formulas with the divisor guarded below by 1. -/
def linReg (pts : List (Int × ℚ)) : LinFit :=
  let xs := pts.map (fun p => ((p.1 : ℚ)))
  let ys := pts.map (fun p => p.2)
  if pts.length < 2 then
    { a := ys.headD 0, b := 0, xs := xs, ys := ys }
  else
    let n : ℚ := (pts.length : ℚ)
    let sx := sumX pts
    let sy := sumY pts
    let sxx := sumXX pts
    let sxy := sumXY pts
    let b := (n * sxy - sx * sy) / max 1 (n * sxx - sx * sx)
    let a := (sy - b * sx) / n
    { a := a, b := b, xs := xs, ys := ys }

/-- Sum of squared residuals of the line a + b * x over the series points. -/
def sse (pts : List (Int × ℚ)) (a b : ℚ) : ℚ :=
  (pts.map (fun p => (p.2 - (a + b * ((p.1 : ℚ)))) ^ 2)).sum

/-- Modelled from the spec: a pair (a, b) is a reference ordinary
least-squares fit when it minimizes the sum of squared residuals over the
given points. -/
def isLeastSquaresFit (pts : List (Int × ℚ)) (a b : ℚ) : Prop :=
  ∀ a' b' : ℚ, sse pts a b ≤ sse pts a' b'

/-- forecastNextYears from the predictive dashboard: a loop from 1 to the
horizon pushing the year lastYear + i and the value a + b * year. -/
def forecastNextYears (a b : ℚ) (lastYear : Int) (horizon : ℕ) :
    List Int × List ℚ :=
  (List.range horizon).foldl
    (fun acc i =>
      let y : Int := lastYear + (i + 1 : ℕ)
      (acc.1 ++ [y], acc.2 ++ [a + b * ((y : ℚ))])) ([], [])

/-! ### Portfolio overrun probability (predictive dashboard) -/

/-- The mean helper of the predictive dashboard: 0 on an empty list. -/
def listMean (l : List ℚ) : ℚ :=
  if l.length = 0 then 0 else l.sum / (l.length : ℚ)

/-- Eligibility filter of portfolioOverrunProbability: finite positive
planned budget and finite actual cost. -/
def eligibleRow (r : Project) : Bool :=
  match r.planned_budget, r.actual_cost with
  | some p, some _ => decide (0 < p)
  | _, _ => false

/-- Overrun test within the eligible rows: actual cost exceeds planned
budget. -/
def overranRow (r : Project) : Bool :=
  match r.planned_budget, r.actual_cost with
  | some p, some a => decide (p < a)
  | _, _ => false

/-- Signed schedule variance in days when both end dates are present. -/
def schedVarDays (r : Project) : Option ℚ :=
  match r.planned_end, r.actual_end with
  | some pe, some ae => some ((ae : ℚ) - (pe : ℚ))
  | _, _ => none

/-- portfolioOverrunProbability from the predictive dashboard: baseline is
the share of eligible rows that overran (0 when none are eligible), and the
adjusted value bumps the baseline by +0.05 when the mean schedule variance
is positive and by -0.02 otherwise, clamped into the unit interval. -/
def portfolioOverrunProbability (rows : List Project) : ℚ × ℚ :=
  let elig := rows.filter eligibleRow
  let over := (elig.filter overranRow).length
  let base : ℚ := if elig.length = 0 then 0 else (over : ℚ) / (elig.length : ℚ)
  let schedVar := listMean (rows.filterMap schedVarDays)
  let adj := min 1 (max 0 (base + (if 0 < schedVar then (5 : ℚ)/100 else -(2 : ℚ)/100)))
  (base, adj)

/-! ### Prescriptive dashboard: spread risk scores and savings -/

/-- scheduleSlipDays from the prescriptive dashboard: signed days between
planned and actual end, 0 when either date is missing. -/
def scheduleSlipDays (p : Project) : ℚ :=
  match p.planned_end, p.actual_end with
  | some pe, some ae => (ae : ℚ) - (pe : ℚ)
  | _, _ => 0

/-- costOverrun from the prescriptive dashboard: actual cost minus planned
budget, 0 when either is non-finite. -/
def costOverrun (p : Project) : ℚ :=
  match p.planned_budget, p.actual_cost with
  | some pb, some ac => ac - pb
  | _, _ => 0

/-- Raw risk composite of computeRiskScores: weighted sum of the size term,
the slip term, and log-scaled change-order and overrun ratios over the
budget floored at 1. -/
noncomputable def rawComposite (p : Project) (coMap : List (String × ℚ)) : ℝ :=
  let size : ℝ := Real.logb 10 (max 1 ((p.planned_budget.getD 0 : ℚ) : ℝ))
  let slip : ℝ := max 0 ((scheduleSlipDays p : ℚ) : ℝ)
  let over : ℝ := max 0 ((costOverrun p : ℚ) : ℝ)
  let co : ℝ := max 0 ((lookupTotal coMap p.project_id : ℚ) : ℝ)
  let plan : ℝ := max 1 ((p.planned_budget.getD 0 : ℚ) : ℝ)
  let coTerm := Real.logb 10 (1 + co / plan)
  let overTerm := Real.logb 10 (1 + over / plan)
  let slipTerm := slip / 60
  let sizeTerm := size - 4.5
  18 * sizeTerm + 15 * slipTerm + 22 * coTerm + 18 * overTerm

/-- Minimum of a list of reals, d3.min style (unused default on empty). -/
noncomputable def listMin : List ℝ → ℝ
  | [] => 0
  | [x] => x
  | x :: y :: rest => min x (listMin (y :: rest))

/-- Maximum of a list of reals, d3.max style (unused default on empty). -/
noncomputable def listMax : List ℝ → ℝ
  | [] => 0
  | [x] => x
  | x :: y :: rest => max x (listMax (y :: rest))

/-- computeRiskScores from the prescriptive dashboard with the random jitter
exposed as a parameter: min-max normalize the cohort's raw composites to
0..100 (span guarded to 1 when it is 0), add the jitter, and clamp into
[0, 100]. -/
noncomputable def computeRiskScores (ps : List Project) (coMap : List (String × ℚ))
    (jitter : ℝ) : List (String × ℝ) :=
  let raws := ps.map (fun p => (p.project_id, rawComposite p coMap))
  let vals := raws.map (fun r => r.2)
  let mn := listMin vals
  let mx := listMax vals
  let span := if mx - mn = 0 then 1 else mx - mn
  raws.map (fun r => (r.1, max 0 (min 100 ((r.2 - mn) / span * 100 + jitter))))

/-- estimateSavings from the prescriptive dashboard: a per-category rate
applied to overrun plus change-order total, capped at 7 percent of the
budget floored at 1, and floored at 0. -/
def estimateSavings (p : Project) (cat : String) (over coTot : ℚ) : ℚ :=
  let plan : ℚ := max 1 (p.planned_budget.getD 0)
  let pct : ℚ :=
    if cat = "Scope alignment" then 10/100 + min (6/100) (coTot / plan)
    else if cat = "Design clarification" then 7/100
    else if cat = "Supplier/subcontractor review" then 5/100
    else if cat = "Schedule tune-up" then 3/100 + min (2/100) (max 0 (scheduleSlipDays p) / 180)
    else 4/100
  let base := over + coTot
  max 0 (min (7/100 * plan) (pct * base))

/-- Modelled from the spec sentence of claim C9: the same formula written
with the raw budget (not floored at 1) as cap base and rate denominator. -/
def specSavingsClaim (p : Project) (cat : String) (over coTot : ℚ) : ℚ :=
  let budget : ℚ := p.planned_budget.getD 0
  let pct : ℚ :=
    if cat = "Scope alignment" then 10/100 + min (6/100) (coTot / budget)
    else if cat = "Design clarification" then 7/100
    else if cat = "Supplier/subcontractor review" then 5/100
    else if cat = "Schedule tune-up" then 3/100 + min (2/100) (max 0 (scheduleSlipDays p) / 180)
    else 4/100
  max 0 (min (7/100 * budget) (pct * (over + coTot)))

/-! ### Change-order reason normalization (diagnostic dashboard) -/

/-- The fixed numeric-code lookup for change-order reasons. -/
def REASON_MAP : List (String × String) :=
  [("0", "Scope Change"), ("1", "Client Request"),
   ("2", "Unforeseen Conditions"), ("3", "Design Revision")]

/-- The trim of the source (String.prototype.trim): strip leading and
trailing whitespace, modelled over the character list. -/
def jsTrim (s : String) : String :=
  String.mk (((s.data.dropWhile Char.isWhitespace).reverse.dropWhile Char.isWhitespace).reverse)

/-- The regex replace of a dot-zeros suffix: drop a trailing group of one or
more zero characters immediately preceded by a dot, and the dot with it. -/
def stripDotZeroSuffix (s : String) : String :=
  let rev := s.data.reverse
  let zs := rev.takeWhile (fun c => c = '0')
  if zs.length ≠ 0 ∧ (rev.drop zs.length).head? = some '.' then
    String.mk ((rev.drop (zs.length + 1)).reverse)
  else s

/-- The reason normalization applied while loading change_orders.csv in the
diagnostic dashboard: look the trimmed raw value up in the fixed map, then
the dot-zeros-stripped value; an unmapped value falls back to the trimmed
raw string, and a blank one to the Unspecified label. -/
def normalizeReason (s : String) : String :=
  let raw := jsTrim s
  let numericish := stripDotZeroSuffix raw
  match (REASON_MAP.lookup raw).orElse (fun _ => REASON_MAP.lookup numericish) with
  | some lbl => lbl
  | none => if raw = "" then "Unspecified" else raw

/-! ### Risk score histogram (predictive dashboard) -/

/-- Five-bin histogram state: counts for 0-20, 21-40, 41-60, 61-80, 81-100. -/
structure Hist where
  b0 : ℕ
  b1 : ℕ
  b2 : ℕ
  b3 : ℕ
  b4 : ℕ
  deriving DecidableEq

/-- One forEach step of the risk histogram: the if-else chain of render. -/
def bumpBin (h : Hist) (s : Int) : Hist :=
  if s ≤ 20 then { h with b0 := h.b0 + 1 }
  else if s ≤ 40 then { h with b1 := h.b1 + 1 }
  else if s ≤ 60 then { h with b2 := h.b2 + 1 }
  else if s ≤ 80 then { h with b3 := h.b3 + 1 }
  else { h with b4 := h.b4 + 1 }

/-- The risk score histogram of the predictive dashboard's render. -/
def riskHistogram (scores : List Int) : Hist :=
  scores.foldl bumpBin ⟨0, 0, 0, 0, 0⟩

/-- Total count held by a histogram. -/
def histSum (h : Hist) : ℕ := h.b0 + h.b1 + h.b2 + h.b3 + h.b4

/-- Read one bin of a histogram by index. -/
def binGet (h : Hist) : Fin 5 → ℕ
  | 0 => h.b0
  | 1 => h.b1
  | 2 => h.b2
  | 3 => h.b3
  | 4 => h.b4

/-- Modelled from the claim: membership of a score in one of the five
labelled bins 0-20, 21-40, 41-60, 61-80, 81-100. -/
def inBin (i : Fin 5) (s : Int) : Prop :=
  match i with
  | 0 => 0 ≤ s ∧ s ≤ 20
  | 1 => 21 ≤ s ∧ s ≤ 40
  | 2 => 41 ≤ s ∧ s ≤ 60
  | 3 => 61 ≤ s ∧ s ≤ 80
  | 4 => 81 ≤ s ∧ s ≤ 100

instance (i : Fin 5) (s : Int) : Decidable (inBin i s) := by
  unfold inBin
  match i with
  | 0 => exact instDecidableAnd
  | 1 => exact instDecidableAnd
  | 2 => exact instDecidableAnd
  | 3 => exact instDecidableAnd
  | 4 => exact instDecidableAnd

/-! ## Claim C8: change-order reason normalization -/

/-- Counterexample to claim C8: the trimmed reason string weather is not in
the lookup and is not blank, yet the normalization keeps it verbatim instead
of mapping it to Unspecified, so the claim that every unmapped reason
becomes Unspecified is false at this concrete input. -/
theorem normalizeReason_unmapped_counterexample :
    normalizeReason "weather" = "weather" ∧ normalizeReason "weather" ≠ "Unspecified" := by
  constructor <;> decide

/-- Claim C8 as amended: the trimmed co_reason string is mapped through the
fixed lookup, first trying the value itself and then the value with a
dot-zeros suffix stripped (so 0.0 maps as 0); a blank reason becomes
Unspecified, while a non-blank reason absent from the lookup keeps its
trimmed raw value; in particular 2 maps to Unforeseen Conditions and the
empty string to Unspecified. -/
theorem normalizeReason_spec :
    normalizeReason "2" = "Unforeseen Conditions" ∧
    normalizeReason "" = "Unspecified" ∧
    normalizeReason "0.0" = "Scope Change" ∧
    (∀ s : String, jsTrim s = "" → normalizeReason s = "Unspecified") ∧
    (∀ s : String, REASON_MAP.lookup (jsTrim s) = none →
      REASON_MAP.lookup (stripDotZeroSuffix (jsTrim s)) = none →
      jsTrim s ≠ "" → normalizeReason s = jsTrim s) := by
  refine ⟨by decide, by decide, by decide, ?_, ?_⟩
  · intro s h
    simp only [normalizeReason, h]
    decide
  · intro s h1 h2 h3
    simp only [normalizeReason, h1, h2]
    simp [Option.orElse, h3]

/-- Witness for the amended claim C8 at the concrete unmapped input
weather. -/
theorem normalizeReason_spec_witness :
    normalizeReason " weather " = jsTrim " weather " :=
  normalizeReason_spec.2.2.2.2 " weather " (by decide) (by decide) (by decide)

/-! ## Claim C10: risk score histogram -/

theorem histSum_bumpBin (h : Hist) (s : Int) : histSum (bumpBin h s) = histSum h + 1 := by
  unfold bumpBin histSum
  split_ifs <;> simp <;> omega

theorem histSum_foldl (scores : List Int) :
    ∀ h : Hist, histSum (scores.foldl bumpBin h) = histSum h + scores.length := by
  induction scores with
  | nil => intro h; simp
  | cons s rest ih =>
      intro h
      simp only [List.foldl_cons, ih, histSum_bumpBin, List.length_cons]
      omega

/-- Claim C10: the risk histogram drops no score and double-counts none: the
five bin counts always sum to the number of scored projects, each bump
increments exactly the bin whose labelled range contains the score, and each
score in the interval from 0 to 100 lies in exactly one of the five labelled
bins. -/
theorem riskHistogram_partition :
    (∀ scores : List Int, histSum (riskHistogram scores) = scores.length) ∧
    (∀ (h : Hist) (s : Int) (i : Fin 5), 0 ≤ s → s ≤ 100 →
      (binGet (bumpBin h s) i = binGet h i + 1 ↔ inBin i s)) ∧
    (∀ s : Int, 0 ≤ s → s ≤ 100 → ∃! i : Fin 5, inBin i s) := by
  refine ⟨?_, ?_, ?_⟩
  · intro scores
    have := histSum_foldl scores ⟨0, 0, 0, 0, 0⟩
    simpa [riskHistogram, histSum] using this
  · intro h s i h0 h100
    fin_cases i <;> simp only [bumpBin, binGet, inBin] <;> split_ifs <;>
      simp <;> omega
  · intro s h0 h100
    by_cases h1 : s ≤ 20
    · refine ⟨0, ⟨h0, h1⟩, ?_⟩
      intro j hj
      fin_cases j <;> first | rfl | (simp only [inBin] at hj; omega)
    · by_cases h2 : s ≤ 40
      · refine ⟨1, ⟨by omega, h2⟩, ?_⟩
        intro j hj
        fin_cases j <;> first | rfl | (simp only [inBin] at hj; omega)
      · by_cases h3 : s ≤ 60
        · refine ⟨2, ⟨by omega, h3⟩, ?_⟩
          intro j hj
          fin_cases j <;> first | rfl | (simp only [inBin] at hj; omega)
        · by_cases h4 : s ≤ 80
          · refine ⟨3, ⟨by omega, h4⟩, ?_⟩
            intro j hj
            fin_cases j <;> first | rfl | (simp only [inBin] at hj; omega)
          · refine ⟨4, ⟨by omega, h100⟩, ?_⟩
            intro j hj
            fin_cases j <;> first | rfl | (simp only [inBin] at hj; omega)

/-- Witness for claim C10 at concrete scores 0, 25 and 100. -/
theorem riskHistogram_partition_witness :
    histSum (riskHistogram [0, 25, 100]) = 3 ∧
    (binGet (bumpBin ⟨0, 0, 0, 0, 0⟩ 25) 1 = 1 ↔ inBin 1 25) ∧
    (∃! i : Fin 5, inBin i 100) :=
  ⟨riskHistogram_partition.1 [0, 25, 100],
   riskHistogram_partition.2.1 ⟨0, 0, 0, 0, 0⟩ 25 1 (by decide) (by decide),
   riskHistogram_partition.2.2 100 (by decide) (by decide)⟩

/-! ## Claim C5: degenerate fit and projection -/

theorem forecastNextYears_eq (a b : ℚ) (ly : Int) :
    ∀ h : ℕ, forecastNextYears a b ly h =
      ((List.range h).map (fun i => ly + ((i : ℕ) + 1 : ℕ)),
       (List.range h).map (fun i => a + b * (((ly + ((i : ℕ) + 1 : ℕ) : Int)) : ℚ))) := by
  intro h
  induction h with
  | zero => simp [forecastNextYears]
  | succ n ih =>
      simp only [forecastNextYears, List.range_succ, List.foldl_append,
        List.foldl_cons, List.foldl_nil, List.map_append, List.map_cons, List.map_nil]
      simp only [forecastNextYears] at ih
      rw [ih]

/-- Claim C5: a series with fewer than 2 points fits slope 0 with intercept
the single observed value (0 when empty), and the projection emits, in
order, exactly one (year, value) pair per horizon step for the years after
the last observed one, with value intercept plus slope times year; fitting
the one-point series 2022 to 500 and projecting 3 years yields 500 at 2023,
2024 and 2025. -/
theorem linReg_degenerate_forecast :
    ((linReg []).a = 0 ∧ (linReg []).b = 0) ∧
    (∀ (x : Int) (y : ℚ), (linReg [(x, y)]).a = y ∧ (linReg [(x, y)]).b = 0) ∧
    (∀ (a b : ℚ) (ly : Int) (h : ℕ),
      (forecastNextYears a b ly h).1.length = h ∧
      (forecastNextYears a b ly h).2.length = h ∧
      (forecastNextYears a b ly h).1 = (List.range h).map (fun i => ly + ((i : ℕ) + 1 : ℕ)) ∧
      (forecastNextYears a b ly h).2 =
        (List.range h).map (fun i => a + b * (((ly + ((i : ℕ) + 1 : ℕ) : Int)) : ℚ))) ∧
    ((linReg [(2022, 500)]).a = 500 ∧ (linReg [(2022, 500)]).b = 0 ∧
      forecastNextYears 500 0 2022 3 = ([2023, 2024, 2025], [500, 500, 500])) := by
  refine ⟨⟨by simp [linReg], by simp [linReg]⟩, ?_, ?_, by simp [linReg],
    by simp [linReg], ?_⟩
  · intro x y
    constructor <;> simp [linReg]
  · intro a b ly h
    rw [forecastNextYears_eq]
    simp
  · rw [forecastNextYears_eq]
    norm_num [List.range_succ]

/-! ## Claim C3: non-finite rows in rollups -/

theorem foldl_skip_filter {α β : Type} (f : β → α → β) (p : α → Bool)
    (hf : ∀ b a, p a = false → f b a = b) :
    ∀ (l : List α) (b : β), l.foldl f b = (l.filter p).foldl f b := by
  intro l
  induction l with
  | nil => intro b; rfl
  | cons x xs ih =>
      intro b
      by_cases hx : p x
      · simp only [List.foldl_cons, List.filter_cons, hx, if_true]
        exact ih (f b x)
      · simp only [List.foldl_cons, List.filter_cons, Bool.not_eq_true] at *
        rw [hf b x hx, ih b, hx]
        simp

/-- Counterexample to claim C3: a change order with a parsable 2020 date and
a non-finite cost is not excluded by coCostByYear; it is added as zero and
creates the 2020 bucket, so the result differs from the rollup over the rows
with the non-finite-cost row removed. -/
theorem coCostByYear_counterexample :
    coCostByYear [⟨"P1", none, "", some 2020⟩] = [(2020, 0)] ∧
    coCostByYear (List.filter (fun r => r.co_cost.isSome) [⟨"P1", none, "", some 2020⟩]) = [] ∧
    coCostByYear [⟨"P1", none, "", some 2020⟩] ≠
      coCostByYear (List.filter (fun r => r.co_cost.isSome) [⟨"P1", none, "", some 2020⟩]) := by
  refine ⟨by decide, by decide, by decide⟩

/-- Claim C3 as amended: the mean rollups by year and by month do exclude a
row whose accessor value is non-finite from both the running sum and the
running count (the rollup equals the rollup over the filtered rows), but the
change-order cost-by-year sum rollup instead treats a non-finite cost as 0,
still creating that year's entry (it equals the rollup over the rows with
the non-finite cost replaced by zero). -/
theorem rollup_nonfinite_policy :
    (∀ (rows : List Project) (accessor : Project → Option ℚ),
      rollupAvgByYear rows accessor =
        rollupAvgByYear (rows.filter (fun r => (accessor r).isSome)) accessor) ∧
    (∀ (rows : List Project) (year : Int) (accessor : Project → Option ℚ),
      rollupAvgByMonth rows year accessor =
        rollupAvgByMonth (rows.filter (fun r => (accessor r).isSome)) year accessor) ∧
    (∀ rows : List ChangeOrder,
      coCostByYear rows =
        coCostByYear (rows.map
          (fun r => if r.co_cost.isSome then r else { r with co_cost := some 0 }))) := by
  refine ⟨?_, ?_, ?_⟩
  · intro rows accessor
    simp only [rollupAvgByYear]
    rw [foldl_skip_filter _ (fun r => (accessor r).isSome)]
    intro b a ha
    have : accessor a = none := Option.not_isSome_iff_eq_none.mp (by simp [ha])
    simp [this]
  · intro rows year accessor
    simp only [rollupAvgByMonth]
    rw [foldl_skip_filter _ (fun r => (accessor r).isSome)]
    intro b a ha
    have : accessor a = none := Option.not_isSome_iff_eq_none.mp (by simp [ha])
    simp [this]
  · intro rows
    simp only [coCostByYear, List.foldl_map]
    congr 1
    funext m r
    cases hc : r.co_cost <;> simp [hc]

/-! ## Claim C6: portfolio overrun probability -/

/-- Claim C6: the baseline is the overrun share of the eligible rows (0 when
none are eligible), the adjusted value is the baseline bumped by +0.05 when
the mean schedule variance over rows with both end dates is positive and by
-0.02 otherwise, clamped into the unit interval; the adjusted value always
lies in the unit interval, and the empty portfolio yields (0, 0). -/
theorem portfolioOverrunProbability_spec :
    (∀ rows : List Project,
      (portfolioOverrunProbability rows).1 =
        (if (rows.filter eligibleRow).length = 0 then 0
         else (((rows.filter eligibleRow).filter overranRow).length : ℚ) /
           ((rows.filter eligibleRow).length : ℚ)) ∧
      (portfolioOverrunProbability rows).2 =
        min 1 (max 0 ((portfolioOverrunProbability rows).1 +
          (if 0 < listMean (rows.filterMap schedVarDays) then (5 : ℚ)/100 else -(2 : ℚ)/100))) ∧
      0 ≤ (portfolioOverrunProbability rows).2 ∧
      (portfolioOverrunProbability rows).2 ≤ 1) ∧
    portfolioOverrunProbability [] = (0, 0) := by
  refine ⟨?_, by norm_num [portfolioOverrunProbability, listMean, min_def, max_def, Prod.ext_iff]⟩
  intro rows
  refine ⟨rfl, rfl, ?_, ?_⟩
  · simp only [portfolioOverrunProbability]
    exact le_min (by norm_num) (le_max_left 0 _)
  · simp only [portfolioOverrunProbability]
    exact min_le_left 1 _

/-! ## Claim C9: savings estimate -/

/-- Counterexample to claim C9: at planned budget 0 the code caps savings at
7 percent of the budget floored at 1 (giving 0.07 for a design
clarification with overrun 100), while the claimed formula caps at 7 percent
of the raw budget, which is 0. -/
theorem estimateSavings_claim_counterexample :
    estimateSavings ⟨"P9", 2020, 0, none, none, some 0, none⟩ "Design clarification" 100 0 = 7/100 ∧
    specSavingsClaim ⟨"P9", 2020, 0, none, none, some 0, none⟩ "Design clarification" 100 0 = 0 ∧
    estimateSavings ⟨"P9", 2020, 0, none, none, some 0, none⟩ "Design clarification" 100 0 ≠
      specSavingsClaim ⟨"P9", 2020, 0, none, none, some 0, none⟩ "Design clarification" 100 0 := by
  refine ⟨?_, ?_, ?_⟩ <;>
    (simp [estimateSavings, specSavingsClaim, scheduleSlipDays] <;> norm_num [min_def, max_def])

/-- Claim C9 as amended: for a project whose planned budget is at least 1,
the savings estimate equals min of 7 percent of the budget and the
per-category rate times overrun plus change-order total, floored at 0, with
the category rates of the claim; in general the code substitutes
max(1, budget) for the budget in the cap and in the rate denominators. -/
theorem estimateSavings_spec (p : Project) (cat : String) (over coTot : ℚ) (b : ℚ)
    (hb : p.planned_budget = some b) (h1 : 1 ≤ b) :
    estimateSavings p cat over coTot = specSavingsClaim p cat over coTot := by
  simp only [estimateSavings, specSavingsClaim, hb, Option.getD_some]
  rw [max_eq_right h1]

/-- Witness for the amended claim C9 at a concrete project with budget 1000
and the schedule tune-up category. -/
theorem estimateSavings_spec_witness :
    estimateSavings ⟨"PW", 2020, 0, some 0, some 90, some 1000, some 1100⟩ "Schedule tune-up" 50 20 =
      specSavingsClaim ⟨"PW", 2020, 0, some 0, some 90, some 1000, some 1100⟩ "Schedule tune-up" 50 20 :=
  estimateSavings_spec _ _ _ _ 1000 rfl (by norm_num)

/-! ## Claims C1 and C2: rule risk score -/

theorem ruleSlipDays_nonneg (row : Project) : 0 ≤ ruleSlipDays row := by
  unfold ruleSlipDays
  cases row.planned_end <;> cases row.actual_end <;> simp [le_max_left]

theorem min_jsRound_comm (x : ℝ) : min 100 (jsRound x) = jsRound (min 100 x) := by
  unfold jsRound
  rcases le_total x 100 with h | h
  · rw [min_eq_right h, min_eq_right]
    have h1 : (⌊x + 1 / 2⌋ : Int) ≤ ⌊(100 : ℝ) + 1 / 2⌋ := Int.floor_le_floor (by linarith)
    have h2 : (⌊(100 : ℝ) + 1 / 2⌋ : Int) = 100 := by norm_num
    omega
  · have h1 : (100 : Int) ≤ ⌊x + 1 / 2⌋ := Int.le_floor.mpr (by push_cast; linarith)
    rw [min_eq_left h, min_eq_left h1]
    norm_num

theorem ruleScore_expr_nonneg (row : Project) (coMap : List (String × ℚ))
    (hco : 0 ≤ lookupTotal coMap row.project_id) :
    0 ≤ 20 * Real.logb 10 (max 1 ((row.planned_budget.getD 0 : ℚ) : ℝ)) +
      0.05 * ((ruleSlipDays row : ℚ) : ℝ) +
      0.000005 * ((lookupTotal coMap row.project_id : ℚ) : ℝ) := by
  have h1 : 0 ≤ Real.logb 10 (max 1 ((row.planned_budget.getD 0 : ℚ) : ℝ)) :=
    Real.logb_nonneg (by norm_num) (le_max_left 1 _)
  have h2 : (0 : ℝ) ≤ ((ruleSlipDays row : ℚ) : ℝ) := by
    exact_mod_cast ruleSlipDays_nonneg row
  have h3 : (0 : ℝ) ≤ ((lookupTotal coMap row.project_id : ℚ) : ℝ) := by exact_mod_cast hco
  linarith

theorem logb_ten_million : Real.logb 10 (((1000000 : ℚ)) : ℝ) = 6 := by
  rw [show (((1000000 : ℚ)) : ℝ) = 10 ^ (6 : ℕ) by norm_num, Real.logb_pow,
    Real.logb_self_eq_one (by norm_num)]
  norm_num

/-- Counterexample to claim C1: for a project with budget 1, no dates and a
summed change-order total of minus one million, the code returns the score
minus 5 while the claimed clamp-to-[0,100]-then-round formula returns 0. -/
theorem ruleRiskScore_claim_counterexample :
    ruleRiskScore ⟨"P1", 2020, 0, none, none, some 1, none⟩ [("P1", -1000000)] = -5 ∧
    specRuleScoreClaim ⟨"P1", 2020, 0, none, none, some 1, none⟩ [("P1", -1000000)] = 0 ∧
    ruleRiskScore ⟨"P1", 2020, 0, none, none, some 1, none⟩ [("P1", -1000000)] ≠
      specRuleScoreClaim ⟨"P1", 2020, 0, none, none, some 1, none⟩ [("P1", -1000000)] := by
  have hco : lookupTotal [("P1", -1000000)] "P1" = -1000000 := by decide
  have h1 : ruleRiskScore ⟨"P1", 2020, 0, none, none, some 1, none⟩ [("P1", -1000000)] = -5 := by
    simp only [ruleRiskScore, jsRound, hco, ruleSlipDays, Option.getD_some]
    norm_num [Real.logb_one, min_def]
  have h2 : specRuleScoreClaim ⟨"P1", 2020, 0, none, none, some 1, none⟩ [("P1", -1000000)] = 0 := by
    simp only [specRuleScoreClaim, jsRound, hco, ruleSlipDays, Option.getD_some]
    norm_num [Real.logb_one, min_def, max_def]
  exact ⟨h1, h2, by rw [h1, h2]; decide⟩

/-- Claim C1 as amended: the rule score equals the round of the weighted sum
capped above at 100 with no lower clamp; whenever the project's summed
change-order total is nonnegative this coincides with the claimed
clamp-then-round formula, and in particular the project with budget one
million, a 45-day slip (2023-01-01 to 2023-02-15) and no change orders
scores 100. -/
theorem ruleRiskScore_spec :
    (∀ (row : Project) (coMap : List (String × ℚ)) (b : ℚ),
      row.planned_budget = some b →
      ruleRiskScore row coMap = specRuleScoreAmended row coMap ∧
      (0 ≤ lookupTotal coMap row.project_id →
        ruleRiskScore row coMap = specRuleScoreClaim row coMap)) ∧
    ruleRiskScore ⟨"P1", 2023, 0, some 0, some 45, some 1000000, none⟩ [] = 100 := by
  constructor
  · intro row coMap b hb
    refine ⟨rfl, ?_⟩
    intro hco
    simp only [ruleRiskScore, specRuleScoreClaim]
    rw [max_eq_right (ruleScore_expr_nonneg row coMap hco)]
    exact min_jsRound_comm _
  · have hslip : ruleSlipDays ⟨"P1", 2023, 0, some 0, some 45, some 1000000, none⟩ = 45 := by
      norm_num [ruleSlipDays, max_def]
    have hmax : max (1 : ℝ) (((1000000 : ℚ)) : ℝ) = ((1000000 : ℚ) : ℝ) :=
      max_eq_right (by norm_num)
    simp only [ruleRiskScore, jsRound, hslip, lookupTotal, List.lookup_nil,
      Option.getD_none, Option.getD_some, hmax, logb_ten_million]
    norm_num [min_def]

/-- Witness for the amended claim C1 at a concrete project with budget 2 and
an empty change-order map. -/
theorem ruleRiskScore_spec_witness :
    ruleRiskScore ⟨"PA", 2021, 0, none, none, some 2, none⟩ [] =
      specRuleScoreAmended ⟨"PA", 2021, 0, none, none, some 2, none⟩ [] ∧
    ruleRiskScore ⟨"PA", 2021, 0, none, none, some 2, none⟩ [] =
      specRuleScoreClaim ⟨"PA", 2021, 0, none, none, some 2, none⟩ [] :=
  ⟨(ruleRiskScore_spec.1 _ [] 2 rfl).1,
   (ruleRiskScore_spec.1 _ [] 2 rfl).2 (by decide)⟩

/-- Counterexample to claim C2: with a summed change-order total of minus one
billion the rule score is minus 5000, far below the claimed lower bound 0. -/
theorem ruleRiskScore_range_counterexample :
    ruleRiskScore ⟨"P2", 2020, 0, none, none, some 1, none⟩ [("P2", -1000000000)] = -5000 ∧
    ruleRiskScore ⟨"P2", 2020, 0, none, none, some 1, none⟩ [("P2", -1000000000)] < 0 := by
  have hco : lookupTotal [("P2", -1000000000)] "P2" = -1000000000 := by decide
  have h1 : ruleRiskScore ⟨"P2", 2020, 0, none, none, some 1, none⟩ [("P2", -1000000000)] = -5000 := by
    simp only [ruleRiskScore, jsRound, hco, ruleSlipDays, Option.getD_some]
    norm_num [Real.logb_one, min_def]
  exact ⟨h1, by rw [h1]; decide⟩

/-- Claim C2 as amended: the rule scorer is deterministic and its score
never exceeds 100; the score is also at least 0 (hence in [0, 100]) whenever
the project's summed change-order total is nonnegative, but a negative total
can push it below 0. -/
theorem ruleRiskScore_deterministic_bounded (row : Project) (coMap : List (String × ℚ))
    (b : ℚ) (_hb : row.planned_budget = some b) :
    ruleRiskScore row coMap = ruleRiskScore row coMap ∧
    ruleRiskScore row coMap ≤ 100 ∧
    (0 ≤ lookupTotal coMap row.project_id → 0 ≤ ruleRiskScore row coMap) := by
  refine ⟨rfl, ?_, ?_⟩
  · simp only [ruleRiskScore]
    exact min_le_left _ _
  · intro hco
    simp only [ruleRiskScore, jsRound]
    have hS := ruleScore_expr_nonneg row coMap hco
    have hfl : (0 : Int) ≤ ⌊20 * Real.logb 10 (max 1 ((row.planned_budget.getD 0 : ℚ) : ℝ)) +
        0.05 * ((ruleSlipDays row : ℚ) : ℝ) +
        0.000005 * ((lookupTotal coMap row.project_id : ℚ) : ℝ) + 1 / 2⌋ :=
      Int.le_floor.mpr (by push_cast; linarith)
    exact le_min (by norm_num) hfl

/-- Witness for the amended claim C2 at a concrete project with budget 3. -/
theorem ruleRiskScore_deterministic_bounded_witness :
    ruleRiskScore ⟨"PB", 2021, 0, none, none, some 3, none⟩ [] ≤ 100 ∧
    0 ≤ ruleRiskScore ⟨"PB", 2021, 0, none, none, some 3, none⟩ [] :=
  ⟨(ruleRiskScore_deterministic_bounded _ [] 3 rfl).2.1,
   (ruleRiskScore_deterministic_bounded _ [] 3 rfl).2.2 (by decide)⟩

/-! ## Claim C7: spread risk scores -/

theorem listMin_mem : ∀ l : List ℝ, l ≠ [] → listMin l ∈ l := by
  intro l
  induction l with
  | nil => intro h; exact absurd rfl h
  | cons x xs ih =>
      intro _
      cases xs with
      | nil => simp [listMin]
      | cons y rest =>
          rcases min_choice x (listMin (y :: rest)) with h | h
          · simp only [listMin, h]
            exact List.mem_cons_self x _
          · simp only [listMin, h]
            exact List.mem_cons_of_mem x (ih (by simp))

theorem listMin_le : ∀ l : List ℝ, ∀ x ∈ l, listMin l ≤ x := by
  intro l
  induction l with
  | nil => intro x hx; simp at hx
  | cons a xs ih =>
      intro x hx
      cases xs with
      | nil =>
          simp at hx
          simp [listMin, hx]
      | cons y rest =>
          rcases List.mem_cons.mp hx with h | h
          · simp only [listMin, h]
            exact min_le_left _ _
          · exact le_trans (min_le_right _ _) (ih x h)

theorem listMax_mem : ∀ l : List ℝ, l ≠ [] → listMax l ∈ l := by
  intro l
  induction l with
  | nil => intro h; exact absurd rfl h
  | cons x xs ih =>
      intro _
      cases xs with
      | nil => simp [listMax]
      | cons y rest =>
          rcases max_choice x (listMax (y :: rest)) with h | h
          · simp only [listMax, h]
            exact List.mem_cons_self x _
          · simp only [listMax, h]
            exact List.mem_cons_of_mem x (ih (by simp))

theorem le_listMax : ∀ l : List ℝ, ∀ x ∈ l, x ≤ listMax l := by
  intro l
  induction l with
  | nil => intro x hx; simp at hx
  | cons a xs ih =>
      intro x hx
      cases xs with
      | nil =>
          simp at hx
          simp [listMax, hx]
      | cons y rest =>
          rcases List.mem_cons.mp hx with h | h
          · simp only [listMax, h]
            exact le_max_left _ _
          · exact le_trans (ih x h) (le_max_right _ _)

theorem computeRiskScores_eq (ps : List Project) (coMap : List (String × ℚ)) (jitter : ℝ) :
    computeRiskScores ps coMap jitter =
      ps.map (fun p => (p.project_id,
        max 0 (min 100 ((rawComposite p coMap -
            listMin (ps.map (fun r => rawComposite r coMap))) /
          (if listMax (ps.map (fun r => rawComposite r coMap)) -
              listMin (ps.map (fun r => rawComposite r coMap)) = 0 then 1
           else listMax (ps.map (fun r => rawComposite r coMap)) -
             listMin (ps.map (fun r => rawComposite r coMap))) * 100 + jitter)))) := by
  simp only [computeRiskScores, List.map_map]
  rfl

/-- Claim C7: with the jitter forced to 0, a cohort of at least 2 projects
whose raw composites are not all identical is min-max normalized to scores
that attain 0 and attain 100 and all lie in [0, 100]. -/
theorem computeRiskScores_minmax (ps : List Project) (coMap : List (String × ℚ))
    (hlen : 2 ≤ ps.length)
    (hne : ∃ p ∈ ps, ∃ q ∈ ps, rawComposite p coMap ≠ rawComposite q coMap) :
    (∃ s ∈ (computeRiskScores ps coMap 0).map (fun r => r.2), s = 0) ∧
    (∃ s ∈ (computeRiskScores ps coMap 0).map (fun r => r.2), s = 100) ∧
    (∀ s ∈ (computeRiskScores ps coMap 0).map (fun r => r.2), 0 ≤ s ∧ s ≤ 100) := by
  obtain ⟨p, hp, q, hq, hpq⟩ := hne
  have hvne : ps.map (fun r => rawComposite r coMap) ≠ [] := by
    cases ps
    · simp at hp
    · simp
  have hmn_mem := listMin_mem _ hvne
  have hmx_mem := listMax_mem _ hvne
  have hmn_le := listMin_le (ps.map (fun r => rawComposite r coMap))
  have hle_mx := le_listMax (ps.map (fun r => rawComposite r coMap))
  have hlt : listMin (ps.map (fun r => rawComposite r coMap)) <
      listMax (ps.map (fun r => rawComposite r coMap)) := by
    rcases lt_or_le (listMin (ps.map (fun r => rawComposite r coMap)))
      (listMax (ps.map (fun r => rawComposite r coMap))) with h | h
    · exact h
    · exfalso
      have heq : ∀ x ∈ ps.map (fun r => rawComposite r coMap),
          x = listMin (ps.map (fun r => rawComposite r coMap)) := by
        intro x hx
        exact le_antisymm (le_trans (hle_mx x hx) h) (hmn_le x hx)
      have h1 := heq _ (List.mem_map_of_mem (fun r => rawComposite r coMap) hp)
      have h2 := heq _ (List.mem_map_of_mem (fun r => rawComposite r coMap) hq)
      exact hpq (h1.trans h2.symm)
  have hspan : (if listMax (ps.map (fun r => rawComposite r coMap)) -
      listMin (ps.map (fun r => rawComposite r coMap)) = 0 then (1 : ℝ)
      else listMax (ps.map (fun r => rawComposite r coMap)) -
        listMin (ps.map (fun r => rawComposite r coMap))) =
      listMax (ps.map (fun r => rawComposite r coMap)) -
        listMin (ps.map (fun r => rawComposite r coMap)) :=
    if_neg (by intro h0; linarith)
  rw [computeRiskScores_eq]
  rw [List.map_map]
  refine ⟨?_, ?_, ?_⟩
  · obtain ⟨p0, hp0, hfp0⟩ := List.mem_map.mp hmn_mem
    refine ⟨_, List.mem_map_of_mem _ hp0, ?_⟩
    simp only [Function.comp, hspan, hfp0]
    norm_num [min_def, max_def]
  · obtain ⟨p1, hp1, hfp1⟩ := List.mem_map.mp hmx_mem
    refine ⟨_, List.mem_map_of_mem _ hp1, ?_⟩
    simp only [Function.comp, hspan, hfp1]
    rw [div_self (by intro h0; linarith)]
    norm_num [min_def, max_def]
  · intro s hs
    obtain ⟨p2, _, hfp2⟩ := List.mem_map.mp hs
    constructor
    · rw [← hfp2]
      exact le_max_left _ _
    · rw [← hfp2]
      exact max_le (by norm_num) (min_le_left _ _)

theorem rawComposite_budget_one :
    rawComposite ⟨"A", 2020, 0, none, none, some 1, none⟩ [] = -81 := by
  simp only [rawComposite, scheduleSlipDays, costOverrun, lookupTotal, List.lookup_nil,
    Option.getD_none, Option.getD_some]
  norm_num [Real.logb_one, max_def]

theorem rawComposite_budget_ten :
    rawComposite ⟨"B", 2020, 0, none, none, some 10, none⟩ [] = -63 := by
  simp only [rawComposite, scheduleSlipDays, costOverrun, lookupTotal, List.lookup_nil,
    Option.getD_none, Option.getD_some]
  rw [show max (1 : ℝ) (((10 : ℚ)) : ℝ) = 10 by norm_num [max_def]]
  rw [Real.logb_self_eq_one (by norm_num)]
  norm_num [Real.logb_one, max_def]

/-- Witness for claim C7 at the concrete two-project cohort with budgets 1
and 10 and no change orders. -/
theorem computeRiskScores_minmax_witness :
    (∃ s ∈ (computeRiskScores [⟨"A", 2020, 0, none, none, some 1, none⟩,
        ⟨"B", 2020, 0, none, none, some 10, none⟩] [] 0).map (fun r => r.2), s = 0) ∧
    (∃ s ∈ (computeRiskScores [⟨"A", 2020, 0, none, none, some 1, none⟩,
        ⟨"B", 2020, 0, none, none, some 10, none⟩] [] 0).map (fun r => r.2), s = 100) ∧
    (∀ s ∈ (computeRiskScores [⟨"A", 2020, 0, none, none, some 1, none⟩,
        ⟨"B", 2020, 0, none, none, some 10, none⟩] [] 0).map (fun r => r.2),
      0 ≤ s ∧ s ≤ 100) := by
  refine computeRiskScores_minmax _ [] (by norm_num) ?_
  refine ⟨⟨"A", 2020, 0, none, none, some 1, none⟩, by simp,
    ⟨"B", 2020, 0, none, none, some 10, none⟩, by simp, ?_⟩
  rw [rawComposite_budget_one, rawComposite_budget_ten]
  norm_num

/-! ## Claim C4: ordinary least squares -/

theorem sq_sum_expand (x : ℤ) : ∀ l : List ℤ,
    (l.map (fun t => (x - t)^2)).sum =
      (l.length : ℤ) * x^2 - 2*x*l.sum + (l.map (fun t => t^2)).sum := by
  intro l
  induction l with
  | nil => simp
  | cons c t ih =>
      simp only [List.map_cons, List.sum_cons, List.length_cons]
      rw [ih]
      push_cast
      ring

theorem sq_sum_nonneg (x : ℤ) (l : List ℤ) : 0 ≤ (l.map (fun t => (x - t)^2)).sum := by
  apply List.sum_nonneg
  intro v hv
  obtain ⟨t, _, rfl⟩ := List.mem_map.mp hv
  positivity

theorem D_nonneg : ∀ l : List ℤ,
    0 ≤ (l.length : ℤ) * (l.map (fun t => t^2)).sum - l.sum^2 := by
  intro l
  induction l with
  | nil => simp
  | cons x t ih =>
      have hx := sq_sum_nonneg x t
      have hexp := sq_sum_expand x t
      simp only [List.map_cons, List.sum_cons, List.length_cons]
      push_cast
      nlinarith [ih, hx, hexp]

theorem one_le_sq_of_ne (x c : ℤ) (h : x ≠ c) : 1 ≤ (x - c)^2 := by
  have h0 : x - c ≠ 0 := sub_ne_zero.mpr h
  rcases lt_or_gt_of_ne h0 with h' | h'
  · nlinarith
  · nlinarith

theorem D_pos_of_ne : ∀ (l : List ℤ) (a b : ℤ), a ∈ l → b ∈ l → a ≠ b →
    1 ≤ (l.length : ℤ) * (l.map (fun t => t^2)).sum - l.sum^2 := by
  intro l
  induction l with
  | nil => intro a b ha _ _; simp at ha
  | cons x t ih =>
      intro a b ha hb hab
      have hxs : ∀ c : ℤ, c ∈ t → x ≠ c → 1 ≤ (t.map (fun s => (x - s)^2)).sum := by
        intro c hc hxc
        have h1 := one_le_sq_of_ne x c hxc
        have h2 : (x - c)^2 ≤ (t.map (fun s => (x - s)^2)).sum := by
          apply List.single_le_sum
          · intro v hv
            obtain ⟨s, _, rfl⟩ := List.mem_map.mp hv
            positivity
          · exact List.mem_map_of_mem _ hc
        linarith
      have hexp := sq_sum_expand x t
      rcases List.mem_cons.mp ha with rfl | ha'
      · rcases List.mem_cons.mp hb with rfl | hb'
        · exact absurd rfl hab
        · have h1 := hxs b hb' hab
          have h0 := D_nonneg t
          simp only [List.map_cons, List.sum_cons, List.length_cons]
          push_cast
          nlinarith [h0, h1, hexp]
      · rcases List.mem_cons.mp hb with rfl | hb'
        · have h1 := hxs a ha' (Ne.symm hab)
          have h0 := D_nonneg t
          simp only [List.map_cons, List.sum_cons, List.length_cons]
          push_cast
          nlinarith [h0, h1, hexp]
        · have h1 := ih a b ha' hb' hab
          have h0 := sq_sum_nonneg x t
          simp only [List.map_cons, List.sum_cons, List.length_cons]
          push_cast
          nlinarith [h0, h1, hexp]

theorem sumX_cast : ∀ pts : List (Int × ℚ),
    sumX pts = (((pts.map (fun r => r.1)).sum : ℤ) : ℚ) := by
  intro pts
  induction pts with
  | nil => simp [sumX]
  | cons p t ih =>
      simp only [sumX, List.map_cons, List.sum_cons] at ih ⊢
      push_cast
      rw [ih]
      push_cast
      ring

theorem sumXX_cast : ∀ pts : List (Int × ℚ),
    sumXX pts = ((((pts.map (fun r => r.1)).map (fun t => t^2)).sum : ℤ) : ℚ) := by
  intro pts
  induction pts with
  | nil => simp [sumXX]
  | cons p t ih =>
      simp only [sumXX, List.map_cons, List.sum_cons] at ih ⊢
      push_cast
      rw [ih]
      push_cast
      ring

theorem resid_sum_eq : ∀ (l : List (Int × ℚ)) (A B : ℚ),
    (l.map (fun r => r.2 - (A + B * ((r.1 : ℚ))))).sum =
      sumY l - (l.length : ℚ) * A - B * sumX l := by
  intro l A B
  induction l with
  | nil => simp [sumY, sumX]
  | cons p t ih =>
      simp only [sumY, sumX, List.map_cons, List.sum_cons, List.length_cons] at ih ⊢
      rw [ih]
      push_cast
      ring

theorem xresid_sum_eq : ∀ (l : List (Int × ℚ)) (A B : ℚ),
    (l.map (fun r => ((r.1 : ℚ)) * (r.2 - (A + B * ((r.1 : ℚ)))))).sum =
      sumXY l - A * sumX l - B * sumXX l := by
  intro l A B
  induction l with
  | nil => simp [sumXY, sumX, sumXX]
  | cons p t ih =>
      simp only [sumXY, sumX, sumXX, List.map_cons, List.sum_cons] at ih ⊢
      rw [ih]
      ring

theorem sse_decomp : ∀ (l : List (Int × ℚ)) (A B a b : ℚ),
    sse l a b = sse l A B
      + (l.map (fun r => ((A - a) + (B - b) * ((r.1 : ℚ)))^2)).sum
      + 2*(A - a) * (l.map (fun r => r.2 - (A + B * ((r.1 : ℚ))))).sum
      + 2*(B - b) * (l.map (fun r => ((r.1 : ℚ)) * (r.2 - (A + B * ((r.1 : ℚ)))))).sum := by
  intro l A B a b
  induction l with
  | nil => simp [sse]
  | cons p t ih =>
      simp only [sse, List.map_cons, List.sum_cons] at ih ⊢
      rw [ih]
      ring

/-- Claim C4: over a series of (year, value) points with at least two
distinct integer years, linReg returns the standard ordinary least-squares
slope and intercept (the guard max(1, D) is inactive because the integer
denominator D is then at least 1), and the returned pair minimizes the sum
of squared residuals over the points, agreeing with the reference
least-squares definition. -/
theorem linReg_ols (pts : List (Int × ℚ))
    (hne : ∃ p ∈ pts, ∃ q ∈ pts, p.1 ≠ q.1) :
    ((linReg pts).b = ((pts.length : ℚ) * sumXY pts - sumX pts * sumY pts) /
        ((pts.length : ℚ) * sumXX pts - (sumX pts)^2) ∧
      (linReg pts).a = (sumY pts - (linReg pts).b * sumX pts) / (pts.length : ℚ)) ∧
    isLeastSquaresFit pts (linReg pts).a (linReg pts).b := by
  obtain ⟨p, hp, q, hq, hpq⟩ := hne
  have hlen : 2 ≤ pts.length := by
    rcases pts with _ | ⟨x, _ | ⟨y, t⟩⟩
    · simp at hp
    · simp only [List.mem_singleton] at hp hq
      subst hp; subst hq
      exact absurd rfl hpq
    · simp only [List.length_cons]
      omega
  have hD : (1 : ℚ) ≤ (pts.length : ℚ) * sumXX pts - (sumX pts)^2 := by
    have hz := D_pos_of_ne (pts.map (fun r => r.1)) p.1 q.1
      (List.mem_map_of_mem _ hp) (List.mem_map_of_mem _ hq) hpq
    rw [List.length_map] at hz
    rw [sumXX_cast, sumX_cast]
    exact_mod_cast hz
  have hn : ((pts.length : ℚ)) ≠ 0 := by
    have h0 : (0 : ℚ) < (pts.length : ℚ) := by exact_mod_cast Nat.lt_of_lt_of_le (by norm_num) hlen
    exact ne_of_gt h0
  have hnlt : ¬ pts.length < 2 := by omega
  have hDne : ((pts.length : ℚ) * sumXX pts - (sumX pts)^2) ≠ 0 := by linarith
  have hmax : max (1 : ℚ) ((pts.length : ℚ) * sumXX pts - sumX pts * sumX pts) =
      (pts.length : ℚ) * sumXX pts - sumX pts * sumX pts := by
    apply max_eq_right
    have h' : (pts.length : ℚ) * sumXX pts - sumX pts * sumX pts =
        (pts.length : ℚ) * sumXX pts - (sumX pts)^2 := by ring
    rw [h']
    exact hD
  have hb : (linReg pts).b = ((pts.length : ℚ) * sumXY pts - sumX pts * sumY pts) /
      ((pts.length : ℚ) * sumXX pts - (sumX pts)^2) := by
    simp only [linReg, if_neg hnlt, hmax]
    congr 1
    ring
  have ha : (linReg pts).a = (sumY pts - (linReg pts).b * sumX pts) / (pts.length : ℚ) := by
    simp only [linReg, if_neg hnlt, hmax]
  have hE0 : (pts.map (fun r => r.2 - ((linReg pts).a + (linReg pts).b * ((r.1 : ℚ))))).sum = 0 := by
    rw [resid_sum_eq, ha]
    field_simp
  have hE1 : (pts.map (fun r =>
      ((r.1 : ℚ)) * (r.2 - ((linReg pts).a + (linReg pts).b * ((r.1 : ℚ)))))).sum = 0 := by
    rw [xresid_sum_eq, ha, hb]
    field_simp
    ring
  refine ⟨⟨hb, ha⟩, ?_⟩
  unfold isLeastSquaresFit
  intro a' b'
  have hdec := sse_decomp pts (linReg pts).a (linReg pts).b a' b'
  rw [hdec, hE0, hE1]
  have hsq : 0 ≤ (pts.map (fun r =>
      (((linReg pts).a - a') + ((linReg pts).b - b') * ((r.1 : ℚ)))^2)).sum := by
    apply List.sum_nonneg
    intro v hv
    obtain ⟨r, _, rfl⟩ := List.mem_map.mp hv
    positivity
  linarith

/-- Witness for claim C4 at the concrete two-point series (0, 0), (1, 1)
compared with the candidate line of intercept 0 and slope 0. -/
theorem linReg_ols_witness :
    sse [(0, 0), (1, 1)] (linReg [(0, 0), (1, 1)]).a (linReg [(0, 0), (1, 1)]).b ≤
      sse [(0, 0), (1, 1)] 0 0 :=
  (linReg_ols [(0, 0), (1, 1)] ⟨(0, 0), by simp, (1, 1), by simp, by decide⟩).2 0 0

end CCDash
